import Mathlib

set_option maxRecDepth 100000

/-!
Verification of the asynchronous inference job service
(`src/app/services/inference_service.py` and `src/app/schemas/inference.py`).

The Python code is shallowly embedded: the job record and its lifecycle, the
CSV-row parser, the inference arithmetic, the executor pipeline and one
iteration of the background worker loop become executable Lean functions.
External collaborators (the torch checkpoint loader, the opaque forward pass
of the model, and pandas' `read_csv`) are parameters of an `Env` record;
Python exceptions are `Except String`.  Numeric values are modelled by `Rat`.
-/

namespace AlmBackend

/-- `JobStatus` from `src/app/schemas/inference.py`. -/
inductive JobStatus where
  | pending
  | processing
  | completed
  | failed
deriving DecidableEq, Repr

/-- `PredictionResult` from `src/app/schemas/inference.py`. -/
structure PredictionResult where
  predicted_prices : List Rat
  prediction_horizon : Nat
  current_price : Rat
deriving DecidableEq, Repr

/-- The `InferenceJob` record of `inference_service.py`. -/
structure InferenceJob where
  job_id : String
  model : String
  data : String
  status : JobStatus
  submitted_at : Nat
  completed_at : Option Nat
  result : Option PredictionResult
  error : Option String
deriving DecidableEq, Repr

/-- `InferenceJob.__init__`: a fresh job is pending with no result, error or
completion timestamp. -/
def mkInferenceJob (job_id model data : String) (now : Nat) : InferenceJob :=
  { job_id := job_id, model := model, data := data, status := JobStatus.pending,
    submitted_at := now, completed_at := none, result := none, error := none }

/-- A cell of the pandas data frame: either a numeric value or a token that
`np.float32` cannot convert. -/
inductive Val where
  | num (q : Rat)
  | nonNumeric (s : String)
deriving DecidableEq, Repr

/-- The data frame produced by `pd.read_csv`: a column list and the rows
(each row listing its cells in column order). -/
structure Table where
  cols : List String
  rows : List (List Val)
deriving DecidableEq, Repr

/-- `read_csv` always yields rectangular frames: each row covers every
column. -/
def RectTable (t : Table) : Prop :=
  ∀ row ∈ t.rows, t.cols.length ≤ row.length

instance (t : Table) : Decidable (RectTable t) := by
  unfold RectTable
  infer_instance

/-- `row[col]` on a pandas row: a `KeyError` when the column is absent from
the frame. -/
def cellAt (t : Table) (row : List Val) (c : String) : Except String Val :=
  if c ∈ t.cols then
    match row.get? (t.cols.indexOf c) with
    | some v => Except.ok v
    | none => Except.error "single positional indexer is out-of-bounds"
  else
    Except.error ("KeyError: " ++ c)

/-- `emb_cols = [f"emb_{i}" for i in range(128)]`. -/
def embCols : List String := (List.range 128).map (fun i => "emb_" ++ toString i)

/-- Sequential effectful map, the order in which a Python list comprehension
evaluates and propagates exceptions. -/
def mapExcept {α β : Type} (f : α → Except String β) : List α → Except String (List β)
  | [] => Except.ok []
  | a :: l =>
    match f a with
    | Except.error e => Except.error e
    | Except.ok b =>
      match mapExcept f l with
      | Except.error e => Except.error e
      | Except.ok bs => Except.ok (b :: bs)

/-- `[col for col in emb_cols if col in df.columns]`, the columns the row
comprehension actually reads. -/
def filteredEmbCols (t : Table) : List String :=
  embCols.filter (fun c => decide (c ∈ t.cols))

/-- The row loop of `_parse_csv_data`: for each row, build
`[row[col] for col in emb_cols if col in df.columns]`; when that vector has
all 128 entries, keep it together with `row["last_price"]`, otherwise skip
the row. -/
def collectRows (t : Table) : List (List Val) → Except String (List (List Val) × List Val)
  | [] => Except.ok ([], [])
  | row :: rest =>
    match mapExcept (cellAt t row) (filteredEmbCols t) with
    | Except.error e => Except.error e
    | Except.ok emb_vec =>
      if emb_vec.length = 128 then
        match cellAt t row "last_price" with
        | Except.error e => Except.error e
        | Except.ok price =>
          match collectRows t rest with
          | Except.error e => Except.error e
          | Except.ok (embs, prices) => Except.ok (emb_vec :: embs, price :: prices)
      else
        collectRows t rest

/-- `np.float32` conversion of one cell, raising on a non-numeric token. -/
def toFloat32 : Val → Except String Rat
  | Val.num q => Except.ok q
  | Val.nonNumeric s => Except.error ("could not convert string to float: " ++ s)

/-- `_parse_csv_data`: run the row loop, then convert both collected lists
with `np.array(..., dtype=np.float32)`. -/
def parse_csv_data (t : Table) : Except String (List (List Rat) × List Rat) :=
  match collectRows t t.rows with
  | Except.error e => Except.error e
  | Except.ok (embeddings, prices) =>
    match mapExcept (fun v => mapExcept toFloat32 v) embeddings with
    | Except.error e => Except.error e
    | Except.ok embF =>
      match mapExcept toFloat32 prices with
      | Except.error e => Except.error e
      | Except.ok priceF => Except.ok (embF, priceF)

/-- The opaque xLSTM model: `predict_last` on a window of embeddings yields
the relative-change predictions (or raises). -/
structure XModel where
  predict_last : List (List Rat) → Except String (List Rat)

/-- The checkpoint configuration dictionary, restricted to the key
`_run_inference` reads (`config.get("prediction_horizon", 1)`). -/
structure ModelConfig where
  prediction_horizon : Option Nat
deriving DecidableEq, Repr

/-- `seq_length = 20  # Default from training`. -/
def seq_length : Nat := 20

/-- The message of the `ValueError` raised by `_run_inference` when too few
rows survive parsing. -/
def insufficientMsg (need got : Nat) : String :=
  "Not enough data points. Need at least " ++ toString need ++ ", got " ++ toString got

/-- `_run_inference`: check the minimum window length, take the trailing
window and the last price, run the forward pass, and convert each relative
change `rel` into `current_price * (1.0 + rel)`. -/
def run_inference (model : XModel) (config : ModelConfig)
    (embeddings : List (List Rat)) (prices : List Rat) :
    Except String PredictionResult :=
  if embeddings.length < seq_length then
    Except.error (insufficientMsg seq_length embeddings.length)
  else
    match prices.getLast? with
    | none => Except.error "index -1 is out of bounds for axis 0 with size 0"
    | some current_price =>
      match model.predict_last (embeddings.drop (embeddings.length - seq_length)) with
      | Except.error e => Except.error e
      | Except.ok pred_relatives =>
        Except.ok
          { predicted_prices := pred_relatives.map (fun rel => current_price * (1 + rel)),
            prediction_horizon := config.prediction_horizon.getD 1,
            current_price := current_price }

/-- The external collaborators of the service: the model directory, the
torch checkpoint loader, and pandas' `read_csv`. -/
structure Env where
  modelExists : String → Bool
  loadCheckpoint : String → Except String (XModel × ModelConfig)
  readCsv : String → Except String Table

/-- `_load_model`: a missing model file raises
`FileNotFoundError(f"Model not found: {model_name}")`; otherwise the
checkpoint is loaded (itself fallible). -/
def load_model (env : Env) (model_name : String) : Except String (XModel × ModelConfig) :=
  if env.modelExists model_name then env.loadCheckpoint model_name
  else Except.error ("Model not found: " ++ model_name)

/-- The body of the `try` block of `_process_queue`: load the model, parse
the data, run inference. -/
def executor (env : Env) (model_name data : String) : Except String PredictionResult :=
  match load_model env model_name with
  | Except.error e => Except.error e
  | Except.ok (model, config) =>
    match env.readCsv data with
    | Except.error e => Except.error e
    | Except.ok t =>
      match parse_csv_data t with
      | Except.error e => Except.error e
      | Except.ok (embeddings, prices) => run_inference model config embeddings prices

/-- `job.status = JobStatus.PROCESSING`, the first write after dequeue. -/
def markProcessing (job : InferenceJob) : InferenceJob :=
  { job with status := JobStatus.processing }

/-- The `try`/`except` of one loop iteration: on success store the result and
mark completed; on any exception store `str(e)` and mark failed; either way
stamp `completed_at`. -/
def finishJob (env : Env) (now : Nat) (job : InferenceJob) : InferenceJob :=
  match executor env job.model job.data with
  | Except.ok r =>
      { job with result := some r, status := JobStatus.completed, completed_at := some now }
  | Except.error e =>
      { job with error := some e, status := JobStatus.failed, completed_at := some now }

/-- One full iteration of `_process_queue` on a dequeued job. -/
def processJob (env : Env) (now : Nat) (job : InferenceJob) : InferenceJob :=
  finishJob env now (markProcessing job)

/-- The worker loop consuming a queue: each dequeued job is processed by one
iteration, and the loop goes on to the next job regardless of the outcome. -/
def workerRun (env : Env) (now : Nat) : List InferenceJob → List InferenceJob
  | [] => []
  | job :: rest => processJob env now job :: workerRun env now rest

/-- An observable status change of one job. -/
structure Event where
  jobId : String
  status : JobStatus
deriving DecidableEq, Repr

/-- The status changes one loop iteration performs on a job: first the
`PROCESSING` write, then the terminal write. -/
def jobEvents (env : Env) (now : Nat) (job : InferenceJob) : List Event :=
  [{ jobId := job.job_id, status := JobStatus.processing },
   { jobId := job.job_id, status := (processJob env now job).status }]

/-- The status-change trace of the worker consuming a queue front to back. -/
def workerTrace (env : Env) (now : Nat) : List InferenceJob → List Event
  | [] => []
  | job :: rest => jobEvents env now job ++ workerTrace env now rest

/-- The in-memory service state: the job store and the FIFO queue. -/
structure ServiceState where
  jobs : List (String × InferenceJob)
  queue : List InferenceJob

/-- `submit_job`: create a fresh pending job, insert it in the store and
enqueue it at the back. -/
def submit_job (st : ServiceState) (job_id model data : String) (now : Nat) :
    ServiceState × String :=
  let job := mkInferenceJob job_id model data now
  ({ jobs := st.jobs ++ [(job_id, job)], queue := st.queue ++ [job] }, job_id)

/-- The service state before any submission. -/
def emptyService : ServiceState := { jobs := [], queue := [] }

/-- The queue after two submissions into an idle service. -/
def twoJobQueue (id1 m1 d1 : String) (t1 : Nat) (id2 m2 d2 : String) (t2 : Nat) :
    List InferenceJob :=
  ((submit_job (submit_job emptyService id1 m1 d1 t1).1 id2 m2 d2 t2).1).queue

/-- The job records reachable through submission and worker-loop processing,
restricted to environments satisfying `P`. -/
inductive Reachable (P : Env → Prop) : InferenceJob → Prop where
  | submitted (job_id model data : String) (now : Nat) :
      Reachable P (mkInferenceJob job_id model data now)
  | marked (job : InferenceJob) :
      Reachable P job → job.status = JobStatus.pending →
      Reachable P (markProcessing job)
  | finished (env : Env) (now : Nat) (job : InferenceJob) :
      Reachable P job → P env → job.status = JobStatus.processing →
      Reachable P (finishJob env now job)

/-- The result/error population invariant tied to the status. -/
def statusResultErrorOk (job : InferenceJob) : Prop :=
  (job.status = JobStatus.completed ↔ job.result.isSome ∧ job.error = none) ∧
  (job.status = JobStatus.failed ↔ job.error.isSome ∧ job.result = none) ∧
  ((job.status = JobStatus.pending ∨ job.status = JobStatus.processing) →
    job.result = none ∧ job.error = none)

instance (job : InferenceJob) : Decidable (statusResultErrorOk job) := by
  unfold statusResultErrorOk
  infer_instance

/-! ### Helper lemmas -/

instance {ε α : Type} [DecidableEq ε] [DecidableEq α] : DecidableEq (Except ε α)
  | Except.ok a, Except.ok b =>
    if h : a = b then isTrue (by rw [h]) else isFalse (by intro hc; cases hc; exact h rfl)
  | Except.ok _, Except.error _ => isFalse (by intro hc; cases hc)
  | Except.error _, Except.ok _ => isFalse (by intro hc; cases hc)
  | Except.error a, Except.error b =>
    if h : a = b then isTrue (by rw [h]) else isFalse (by intro hc; cases hc; exact h rfl)

theorem string_append_ne_empty (s t : String) (hs : s ≠ "") : s ++ t ≠ "" := by
  intro h
  apply hs
  have hd : s.data ++ t.data = ([] : List Char) := by
    rw [← String.data_append, h]
  have hsd : s.data = [] := (List.append_eq_nil.mp hd).1
  cases s
  simp only [String.data] at hsd
  rw [hsd]

theorem mapExcept_ok_length {α β : Type} (f : α → Except String β) :
    ∀ (l : List α) (l' : List β), mapExcept f l = Except.ok l' → l'.length = l.length := by
  intro l
  induction l with
  | nil =>
    intro l' h
    simp only [mapExcept] at h
    cases h
    rfl
  | cons a l ih =>
    intro l' h
    simp only [mapExcept] at h
    cases hfa : f a with
    | error e => rw [hfa] at h; cases h
    | ok b =>
      rw [hfa] at h
      cases hrec : mapExcept f l with
      | error e => rw [hrec] at h; cases h
      | ok bs =>
        rw [hrec] at h
        cases h
        simp [ih bs hrec]

theorem mapExcept_error_exists {α β : Type} (f : α → Except String β) :
    ∀ (l : List α) (e : String), mapExcept f l = Except.error e → ∃ x ∈ l, f x = Except.error e := by
  intro l
  induction l with
  | nil =>
    intro e h
    simp only [mapExcept] at h
    cases h
  | cons a l ih =>
    intro e h
    simp only [mapExcept] at h
    cases hfa : f a with
    | error e2 =>
      rw [hfa] at h
      cases h
      exact ⟨a, List.mem_cons_self a l, hfa⟩
    | ok b =>
      rw [hfa] at h
      cases hrec : mapExcept f l with
      | error e2 =>
        rw [hrec] at h
        cases h
        obtain ⟨x, hx, hfx⟩ := ih e hrec
        exact ⟨x, List.mem_cons_of_mem a hx, hfx⟩
      | ok bs => rw [hrec] at h; cases h

theorem mapExcept_ok_forall₂ {α β : Type} (f : α → Except String β) :
    ∀ (l : List α) (l' : List β), mapExcept f l = Except.ok l' →
      List.Forall₂ (fun a b => f a = Except.ok b) l l' := by
  intro l
  induction l with
  | nil =>
    intro l' h
    simp only [mapExcept] at h
    cases h
    exact List.Forall₂.nil
  | cons a l ih =>
    intro l' h
    simp only [mapExcept] at h
    cases hfa : f a with
    | error e => rw [hfa] at h; cases h
    | ok b =>
      rw [hfa] at h
      cases hrec : mapExcept f l with
      | error e => rw [hrec] at h; cases h
      | ok bs =>
        rw [hrec] at h
        cases h
        exact List.Forall₂.cons hfa (ih bs hrec)

theorem mapExcept_eq_ok_map {α β : Type} (f : α → Except String β) (g : α → β) :
    ∀ (l : List α), (∀ a ∈ l, f a = Except.ok (g a)) → mapExcept f l = Except.ok (l.map g) := by
  intro l
  induction l with
  | nil => intro _; rfl
  | cons a l ih =>
    intro h
    have ha : f a = Except.ok (g a) := h a (List.mem_cons_self a l)
    have hrest : mapExcept f l = Except.ok (l.map g) :=
      ih (fun x hx => h x (List.mem_cons_of_mem a hx))
    simp only [mapExcept, ha, hrest, List.map]

/-- The value of a present cell: the row entry at the column's index. -/
def cellVal (t : Table) (row : List Val) (c : String) : Val :=
  row.getD (t.cols.indexOf c) (Val.nonNumeric "")

theorem cellAt_ok_of_mem (t : Table) (row : List Val) (c : String)
    (hc : c ∈ t.cols) (hrow : t.cols.length ≤ row.length) :
    cellAt t row c = Except.ok (cellVal t row c) := by
  have hidx : t.cols.indexOf c < t.cols.length := List.indexOf_lt_length.mpr hc
  have hlt : t.cols.indexOf c < row.length := Nat.lt_of_lt_of_le hidx hrow
  unfold cellAt
  rw [if_pos hc]
  rw [List.get?_eq_getElem?, List.getElem?_eq_getElem hlt]
  unfold cellVal
  rw [List.getD_eq_getElem _ _ hlt]

theorem cellAt_not_mem (t : Table) (row : List Val) (c : String) (hc : c ∉ t.cols) :
    cellAt t row c = Except.error ("KeyError: " ++ c) := by
  unfold cellAt
  rw [if_neg hc]

theorem cellAt_error_cases (t : Table) (row : List Val) (c : String) (e : String)
    (h : cellAt t row c = Except.error e) :
    e = "single positional indexer is out-of-bounds" ∨ e = "KeyError: " ++ c := by
  unfold cellAt at h
  by_cases hc : c ∈ t.cols
  · rw [if_pos hc] at h
    cases hg : row.get? (t.cols.indexOf c) with
    | some v => rw [hg] at h; cases h
    | none => rw [hg] at h; cases h; left; rfl
  · rw [if_neg hc] at h
    cases h
    right
    rfl

theorem toFloat32_error_shape (v : Val) (e : String) (h : toFloat32 v = Except.error e) :
    ∃ s, e = "could not convert string to float: " ++ s := by
  cases v with
  | num q => cases h
  | nonNumeric s =>
    simp only [toFloat32] at h
    cases h
    exact ⟨s, rfl⟩

theorem toFloat32_ok_num (v : Val) (q : Rat) (h : toFloat32 v = Except.ok q) : v = Val.num q := by
  cases v with
  | num r =>
    simp only [toFloat32] at h
    cases h
    rfl
  | nonNumeric s => cases h

/-! ### Conditional unfolding equations for the embedded functions -/

theorem collectRows_cons_map_error (t : Table) (row : List Val) (rest : List (List Val))
    (e : String) (hm : mapExcept (cellAt t row) (filteredEmbCols t) = Except.error e) :
    collectRows t (row :: rest) = Except.error e := by
  unfold collectRows
  rw [hm]

theorem collectRows_cons_skip (t : Table) (row : List Val) (rest : List (List Val))
    (emb_vec : List Val) (hm : mapExcept (cellAt t row) (filteredEmbCols t) = Except.ok emb_vec)
    (hlen : ¬ emb_vec.length = 128) :
    collectRows t (row :: rest) = collectRows t rest := by
  rw [collectRows.eq_def]
  simp only [hm, if_neg hlen]

theorem collectRows_cons_price_error (t : Table) (row : List Val) (rest : List (List Val))
    (emb_vec : List Val) (e : String)
    (hm : mapExcept (cellAt t row) (filteredEmbCols t) = Except.ok emb_vec)
    (hlen : emb_vec.length = 128)
    (hp : cellAt t row "last_price" = Except.error e) :
    collectRows t (row :: rest) = Except.error e := by
  unfold collectRows
  rw [hm]
  simp only [if_pos hlen]
  rw [hp]

theorem collectRows_cons_rec_error (t : Table) (row : List Val) (rest : List (List Val))
    (emb_vec : List Val) (price : Val) (e : String)
    (hm : mapExcept (cellAt t row) (filteredEmbCols t) = Except.ok emb_vec)
    (hlen : emb_vec.length = 128)
    (hp : cellAt t row "last_price" = Except.ok price)
    (hrec : collectRows t rest = Except.error e) :
    collectRows t (row :: rest) = Except.error e := by
  unfold collectRows
  rw [hm]
  simp only [if_pos hlen]
  rw [hp, hrec]

theorem collectRows_cons_keep (t : Table) (row : List Val) (rest : List (List Val))
    (emb_vec : List Val) (price : Val) (embs : List (List Val)) (prices : List Val)
    (hm : mapExcept (cellAt t row) (filteredEmbCols t) = Except.ok emb_vec)
    (hlen : emb_vec.length = 128)
    (hp : cellAt t row "last_price" = Except.ok price)
    (hrec : collectRows t rest = Except.ok (embs, prices)) :
    collectRows t (row :: rest) = Except.ok (emb_vec :: embs, price :: prices) := by
  unfold collectRows
  rw [hm]
  simp only [if_pos hlen]
  rw [hp, hrec]

theorem parse_collect_error (t : Table) (e : String)
    (hc : collectRows t t.rows = Except.error e) :
    parse_csv_data t = Except.error e := by
  unfold parse_csv_data
  rw [hc]

theorem parse_emb_conv_error (t : Table) (embeddings : List (List Val)) (prices : List Val)
    (e : String)
    (hc : collectRows t t.rows = Except.ok (embeddings, prices))
    (he : mapExcept (fun v => mapExcept toFloat32 v) embeddings = Except.error e) :
    parse_csv_data t = Except.error e := by
  unfold parse_csv_data
  simp only [hc, he]

theorem parse_price_conv_error (t : Table) (embeddings : List (List Val)) (prices : List Val)
    (embF : List (List Rat)) (e : String)
    (hc : collectRows t t.rows = Except.ok (embeddings, prices))
    (he : mapExcept (fun v => mapExcept toFloat32 v) embeddings = Except.ok embF)
    (hp : mapExcept toFloat32 prices = Except.error e) :
    parse_csv_data t = Except.error e := by
  unfold parse_csv_data
  simp only [hc, he, hp]

theorem parse_conv_ok (t : Table) (embeddings : List (List Val)) (prices : List Val)
    (embF : List (List Rat)) (priceF : List Rat)
    (hc : collectRows t t.rows = Except.ok (embeddings, prices))
    (he : mapExcept (fun v => mapExcept toFloat32 v) embeddings = Except.ok embF)
    (hp : mapExcept toFloat32 prices = Except.ok priceF) :
    parse_csv_data t = Except.ok (embF, priceF) := by
  unfold parse_csv_data
  simp only [hc, he, hp]

theorem parse_ok_cases (t : Table) (embF : List (List Rat)) (priceF : List Rat)
    (h : parse_csv_data t = Except.ok (embF, priceF)) :
    ∃ embeddings prices,
      collectRows t t.rows = Except.ok (embeddings, prices) ∧
      mapExcept (fun v => mapExcept toFloat32 v) embeddings = Except.ok embF ∧
      mapExcept toFloat32 prices = Except.ok priceF := by
  cases hc : collectRows t t.rows with
  | error e => rw [parse_collect_error t e hc] at h; cases h
  | ok pr =>
    obtain ⟨embeddings, prices⟩ := pr
    cases he : mapExcept (fun v => mapExcept toFloat32 v) embeddings with
    | error e => rw [parse_emb_conv_error t embeddings prices e hc he] at h; cases h
    | ok embF2 =>
      cases hp : mapExcept toFloat32 prices with
      | error e => rw [parse_price_conv_error t embeddings prices embF2 e hc he hp] at h; cases h
      | ok priceF2 =>
        rw [parse_conv_ok t embeddings prices embF2 priceF2 hc he hp] at h
        cases h
        exact ⟨embeddings, prices, rfl, he, hp⟩

theorem run_inference_insufficient (model : XModel) (config : ModelConfig)
    (embeddings : List (List Rat)) (prices : List Rat)
    (hlen : embeddings.length < seq_length) :
    run_inference model config embeddings prices =
      Except.error (insufficientMsg seq_length embeddings.length) := by
  unfold run_inference
  rw [if_pos hlen]

theorem run_inference_empty_prices (model : XModel) (config : ModelConfig)
    (embeddings : List (List Rat)) (prices : List Rat)
    (hlen : ¬ embeddings.length < seq_length) (hlast : prices.getLast? = none) :
    run_inference model config embeddings prices =
      Except.error "index -1 is out of bounds for axis 0 with size 0" := by
  unfold run_inference
  rw [if_neg hlen, hlast]

theorem run_inference_predict_error (model : XModel) (config : ModelConfig)
    (embeddings : List (List Rat)) (prices : List Rat) (current_price : Rat) (e : String)
    (hlen : ¬ embeddings.length < seq_length)
    (hlast : prices.getLast? = some current_price)
    (hpred : model.predict_last (embeddings.drop (embeddings.length - seq_length)) =
      Except.error e) :
    run_inference model config embeddings prices = Except.error e := by
  unfold run_inference
  rw [if_neg hlen, hlast, hpred]

theorem run_inference_success (model : XModel) (config : ModelConfig)
    (embeddings : List (List Rat)) (prices : List Rat) (current_price : Rat)
    (pred_relatives : List Rat)
    (hlen : ¬ embeddings.length < seq_length)
    (hlast : prices.getLast? = some current_price)
    (hpred : model.predict_last (embeddings.drop (embeddings.length - seq_length)) =
      Except.ok pred_relatives) :
    run_inference model config embeddings prices =
      Except.ok
        { predicted_prices := pred_relatives.map (fun rel => current_price * (1 + rel)),
          prediction_horizon := config.prediction_horizon.getD 1,
          current_price := current_price } := by
  unfold run_inference
  rw [if_neg hlen, hlast, hpred]

theorem run_inference_ok_cases (model : XModel) (config : ModelConfig)
    (embeddings : List (List Rat)) (prices : List Rat) (res : PredictionResult)
    (h : run_inference model config embeddings prices = Except.ok res) :
    ∃ current_price pred_relatives,
      ¬ embeddings.length < seq_length ∧
      prices.getLast? = some current_price ∧
      model.predict_last (embeddings.drop (embeddings.length - seq_length)) =
        Except.ok pred_relatives ∧
      res = { predicted_prices := pred_relatives.map (fun rel => current_price * (1 + rel)),
              prediction_horizon := config.prediction_horizon.getD 1,
              current_price := current_price } := by
  unfold run_inference at h
  by_cases hlen : embeddings.length < seq_length
  · rw [if_pos hlen] at h
    cases h
  · rw [if_neg hlen] at h
    cases hlast : prices.getLast? with
    | none => rw [hlast] at h; cases h
    | some current_price =>
      rw [hlast] at h
      cases hpred : model.predict_last (embeddings.drop (embeddings.length - seq_length)) with
      | error e => rw [hpred] at h; cases h
      | ok pred_relatives =>
        rw [hpred] at h
        cases h
        exact ⟨current_price, pred_relatives, hlen, rfl, rfl, rfl⟩

theorem run_inference_error_cases (model : XModel) (config : ModelConfig)
    (embeddings : List (List Rat)) (prices : List Rat) (e : String)
    (h : run_inference model config embeddings prices = Except.error e) :
    e = insufficientMsg seq_length embeddings.length ∨
    e = "index -1 is out of bounds for axis 0 with size 0" ∨
    model.predict_last (embeddings.drop (embeddings.length - seq_length)) = Except.error e := by
  unfold run_inference at h
  by_cases hlen : embeddings.length < seq_length
  · rw [if_pos hlen] at h
    cases h
    left
    rfl
  · rw [if_neg hlen] at h
    cases hlast : prices.getLast? with
    | none =>
      rw [hlast] at h
      cases h
      right
      left
      rfl
    | some current_price =>
      rw [hlast] at h
      cases hpred : model.predict_last (embeddings.drop (embeddings.length - seq_length)) with
      | error e2 =>
        rw [hpred] at h
        cases h
        right
        right
        rfl
      | ok pred_relatives => rw [hpred] at h; cases h

theorem load_model_ok_cases (env : Env) (model_name : String) (mc : XModel × ModelConfig)
    (h : load_model env model_name = Except.ok mc) :
    env.modelExists model_name = true ∧ env.loadCheckpoint model_name = Except.ok mc := by
  unfold load_model at h
  by_cases hex : env.modelExists model_name
  · rw [if_pos hex] at h
    exact ⟨hex, h⟩
  · rw [if_neg hex] at h
    cases h

theorem load_model_error_cases (env : Env) (model_name : String) (e : String)
    (h : load_model env model_name = Except.error e) :
    e = "Model not found: " ++ model_name ∨ env.loadCheckpoint model_name = Except.error e := by
  unfold load_model at h
  by_cases hex : env.modelExists model_name
  · rw [if_pos hex] at h
    right
    exact h
  · rw [if_neg hex] at h
    cases h
    left
    rfl

theorem executor_load_error (env : Env) (model_name data : String) (e : String)
    (h : load_model env model_name = Except.error e) :
    executor env model_name data = Except.error e := by
  unfold executor
  rw [h]

theorem executor_csv_error (env : Env) (model_name data : String)
    (model : XModel) (config : ModelConfig) (e : String)
    (hl : load_model env model_name = Except.ok (model, config))
    (h : env.readCsv data = Except.error e) :
    executor env model_name data = Except.error e := by
  unfold executor
  rw [hl, h]

theorem executor_parse_error (env : Env) (model_name data : String)
    (model : XModel) (config : ModelConfig) (t : Table) (e : String)
    (hl : load_model env model_name = Except.ok (model, config))
    (hc : env.readCsv data = Except.ok t)
    (hp : parse_csv_data t = Except.error e) :
    executor env model_name data = Except.error e := by
  unfold executor
  simp only [hl, hc, hp]

theorem executor_run (env : Env) (model_name data : String)
    (model : XModel) (config : ModelConfig) (t : Table)
    (embeddings : List (List Rat)) (prices : List Rat)
    (hl : load_model env model_name = Except.ok (model, config))
    (hc : env.readCsv data = Except.ok t)
    (hp : parse_csv_data t = Except.ok (embeddings, prices)) :
    executor env model_name data = run_inference model config embeddings prices := by
  unfold executor
  simp only [hl, hc, hp]

theorem finishJob_of_ok (env : Env) (now : Nat) (job : InferenceJob) (r : PredictionResult)
    (h : executor env job.model job.data = Except.ok r) :
    finishJob env now job =
      { job with result := some r, status := JobStatus.completed, completed_at := some now } := by
  unfold finishJob
  rw [h]

theorem finishJob_of_error (env : Env) (now : Nat) (job : InferenceJob) (e : String)
    (h : executor env job.model job.data = Except.error e) :
    finishJob env now job =
      { job with error := some e, status := JobStatus.failed, completed_at := some now } := by
  unfold finishJob
  rw [h]

/-! ### Structural facts about the row loop -/

/-- All 128 required embedding columns are present in the frame. -/
def hasAllEmbCols (t : Table) : Prop := ∀ c ∈ embCols, c ∈ t.cols

instance (t : Table) : Decidable (hasAllEmbCols t) := by
  unfold hasAllEmbCols
  infer_instance

theorem embCols_length : embCols.length = 128 := by
  simp [embCols]

theorem filteredEmbCols_all (t : Table) (h : hasAllEmbCols t) : filteredEmbCols t = embCols :=
  List.filter_eq_self.mpr (fun c hc => decide_eq_true (h c hc))

theorem filteredEmbCols_not_all (t : Table) (h : ¬ hasAllEmbCols t) :
    (filteredEmbCols t).length ≠ 128 := by
  intro hlen
  apply h
  intro c hc
  have h2 : (filteredEmbCols t).length = embCols.length := by rw [hlen, embCols_length]
  have h3 := List.filter_length_eq_length.mp h2 c hc
  exact of_decide_eq_true h3

theorem mem_cols_of_mem_filtered (t : Table) (c : String) (hc : c ∈ filteredEmbCols t) :
    c ∈ t.cols := by
  unfold filteredEmbCols at hc
  have h2 := List.of_mem_filter hc
  exact of_decide_eq_true h2

/-- In a frame holding all required columns, the embedding vector the loop
builds for one row. -/
def rowVec (t : Table) (row : List Val) : List Val := embCols.map (cellVal t row)

theorem collectRows_cons_cases (t : Table) (row : List Val) (rest : List (List Val))
    (es : List (List Val)) (ps : List Val)
    (h : collectRows t (row :: rest) = Except.ok (es, ps)) :
    ∃ emb_vec, mapExcept (cellAt t row) (filteredEmbCols t) = Except.ok emb_vec ∧
      ((emb_vec.length = 128 ∧ ∃ price embs prices,
          cellAt t row "last_price" = Except.ok price ∧
          collectRows t rest = Except.ok (embs, prices) ∧
          es = emb_vec :: embs ∧ ps = price :: prices) ∨
       (¬ emb_vec.length = 128 ∧ collectRows t rest = Except.ok (es, ps))) := by
  cases hm : mapExcept (cellAt t row) (filteredEmbCols t) with
  | error e => rw [collectRows_cons_map_error t row rest e hm] at h; cases h
  | ok emb_vec =>
    by_cases hlen : emb_vec.length = 128
    · cases hp : cellAt t row "last_price" with
      | error e => rw [collectRows_cons_price_error t row rest emb_vec e hm hlen hp] at h; cases h
      | ok price =>
        cases hrec : collectRows t rest with
        | error e => rw [collectRows_cons_rec_error t row rest emb_vec price e hm hlen hp hrec] at h; cases h
        | ok pr =>
          obtain ⟨embs, prices⟩ := pr
          rw [collectRows_cons_keep t row rest emb_vec price embs prices hm hlen hp hrec] at h
          cases h
          exact ⟨emb_vec, rfl, Or.inl ⟨hlen, price, embs, prices, rfl, rfl, rfl, rfl⟩⟩
    · rw [collectRows_cons_skip t row rest emb_vec hm hlen] at h
      exact ⟨emb_vec, rfl, Or.inr ⟨hlen, h⟩⟩

theorem collectRows_ok_length (t : Table) :
    ∀ (rows : List (List Val)) (es : List (List Val)) (ps : List Val),
      collectRows t rows = Except.ok (es, ps) → es.length = ps.length := by
  intro rows
  induction rows with
  | nil =>
    intro es ps h
    rw [show collectRows t [] = Except.ok ([], []) from rfl] at h
    cases h
    rfl
  | cons row rest ih =>
    intro es ps h
    obtain ⟨emb_vec, _, hcase⟩ := collectRows_cons_cases t row rest es ps h
    cases hcase with
    | inl hk =>
      obtain ⟨hlen, price, embs, prices, hp, hrec, hes, hps⟩ := hk
      subst hes
      subst hps
      simp [ih embs prices hrec]
    | inr hs => exact ih es ps hs.2

theorem collectRows_skip_all (t : Table) (hmiss : ¬ hasAllEmbCols t) :
    ∀ rows, (∀ row ∈ rows, t.cols.length ≤ row.length) →
      collectRows t rows = Except.ok ([], []) := by
  intro rows
  induction rows with
  | nil => intro _; rfl
  | cons row rest ih =>
    intro hrect
    have hm : mapExcept (cellAt t row) (filteredEmbCols t) =
        Except.ok ((filteredEmbCols t).map (cellVal t row)) := by
      apply mapExcept_eq_ok_map
      intro c hc
      exact cellAt_ok_of_mem t row c (mem_cols_of_mem_filtered t c hc)
        (hrect row (List.mem_cons_self row rest))
    have hlen : ¬ ((filteredEmbCols t).map (cellVal t row)).length = 128 := by
      rw [List.length_map]
      exact filteredEmbCols_not_all t hmiss
    rw [collectRows_cons_skip t row rest _ hm hlen]
    exact ih (fun r hr => hrect r (List.mem_cons_of_mem row hr))

theorem collectRows_complete (t : Table) (hall : hasAllEmbCols t)
    (hlp : "last_price" ∈ t.cols) :
    ∀ rows, (∀ row ∈ rows, t.cols.length ≤ row.length) →
      collectRows t rows =
        Except.ok (rows.map (rowVec t), rows.map (fun row => cellVal t row "last_price")) := by
  intro rows
  induction rows with
  | nil => intro _; rfl
  | cons row rest ih =>
    intro hrect
    have hrow := hrect row (List.mem_cons_self row rest)
    have hm : mapExcept (cellAt t row) (filteredEmbCols t) = Except.ok (rowVec t row) := by
      rw [filteredEmbCols_all t hall]
      exact mapExcept_eq_ok_map _ _ _ (fun c hc => cellAt_ok_of_mem t row c (hall c hc) hrow)
    have hlen : (rowVec t row).length = 128 := by
      unfold rowVec
      rw [List.length_map, embCols_length]
    have hp : cellAt t row "last_price" = Except.ok (cellVal t row "last_price") :=
      cellAt_ok_of_mem t row "last_price" hlp hrow
    rw [collectRows_cons_keep t row rest _ _ _ _ hm hlen hp
      (ih (fun r hr => hrect r (List.mem_cons_of_mem row hr)))]
    simp [List.map_cons]

theorem collectRows_noLP_error (t : Table) (hall : hasAllEmbCols t)
    (hlp : "last_price" ∉ t.cols) (row : List Val) (rest : List (List Val))
    (hrow : t.cols.length ≤ row.length) :
    collectRows t (row :: rest) = Except.error ("KeyError: " ++ "last_price") := by
  have hm : mapExcept (cellAt t row) (filteredEmbCols t) = Except.ok (rowVec t row) := by
    rw [filteredEmbCols_all t hall]
    exact mapExcept_eq_ok_map _ _ _ (fun c hc => cellAt_ok_of_mem t row c (hall c hc) hrow)
  have hlen : (rowVec t row).length = 128 := by
    unfold rowVec
    rw [List.length_map, embCols_length]
  exact collectRows_cons_price_error t row rest _ _ hm hlen
    (cellAt_not_mem t row "last_price" hlp)

/-! ### Shapes of the error messages the pipeline can produce -/

theorem collectRows_cons_error_cases (t : Table) (row : List Val) (rest : List (List Val))
    (e : String) (h : collectRows t (row :: rest) = Except.error e) :
    mapExcept (cellAt t row) (filteredEmbCols t) = Except.error e ∨
    cellAt t row "last_price" = Except.error e ∨
    collectRows t rest = Except.error e := by
  cases hm : mapExcept (cellAt t row) (filteredEmbCols t) with
  | error e2 =>
    rw [collectRows_cons_map_error t row rest e2 hm] at h
    cases h
    left
    rfl
  | ok emb_vec =>
    by_cases hlen : emb_vec.length = 128
    · cases hp : cellAt t row "last_price" with
      | error e2 =>
        rw [collectRows_cons_price_error t row rest emb_vec e2 hm hlen hp] at h
        cases h
        right
        left
        rfl
      | ok price =>
        cases hrec : collectRows t rest with
        | error e2 =>
          rw [collectRows_cons_rec_error t row rest emb_vec price e2 hm hlen hp hrec] at h
          cases h
          right
          right
          rfl
        | ok pr =>
          obtain ⟨embs, prices⟩ := pr
          rw [collectRows_cons_keep t row rest emb_vec price embs prices hm hlen hp hrec] at h
          cases h
    · rw [collectRows_cons_skip t row rest emb_vec hm hlen] at h
      right
      right
      exact h

theorem collectRows_error_shapes (t : Table) :
    ∀ (rows : List (List Val)) (e : String), collectRows t rows = Except.error e →
      e = "single positional indexer is out-of-bounds" ∨ ∃ c, e = "KeyError: " ++ c := by
  intro rows
  induction rows with
  | nil =>
    intro e h
    rw [show collectRows t [] = Except.ok ([], []) from rfl] at h
    cases h
  | cons row rest ih =>
    intro e h
    cases collectRows_cons_error_cases t row rest e h with
    | inl hm =>
      obtain ⟨c, _, hcell⟩ := mapExcept_error_exists _ _ e hm
      exact (cellAt_error_cases t row c e hcell).imp id (fun hx => ⟨c, hx⟩)
    | inr h2 =>
      cases h2 with
      | inl hp =>
        exact (cellAt_error_cases t row "last_price" e hp).imp id (fun hx => ⟨"last_price", hx⟩)
      | inr hrec => exact ih e hrec

theorem parse_error_cases (t : Table) (e : String) (h : parse_csv_data t = Except.error e) :
    collectRows t t.rows = Except.error e ∨ ∃ v, toFloat32 v = Except.error e := by
  cases hc : collectRows t t.rows with
  | error e2 =>
    rw [parse_collect_error t e2 hc] at h
    cases h
    left
    rfl
  | ok pr =>
    obtain ⟨embeddings, prices⟩ := pr
    cases he : mapExcept (fun v => mapExcept toFloat32 v) embeddings with
    | error e2 =>
      rw [parse_emb_conv_error t embeddings prices e2 hc he] at h
      cases h
      right
      obtain ⟨vec, _, hvec⟩ := mapExcept_error_exists _ embeddings _ he
      obtain ⟨v, _, hv⟩ := mapExcept_error_exists toFloat32 vec _ hvec
      exact ⟨v, hv⟩
    | ok embF =>
      cases hp : mapExcept toFloat32 prices with
      | error e2 =>
        rw [parse_price_conv_error t embeddings prices embF e2 hc he hp] at h
        cases h
        right
        obtain ⟨v, _, hv⟩ := mapExcept_error_exists toFloat32 prices _ hp
        exact ⟨v, hv⟩
      | ok priceF =>
        rw [parse_conv_ok t embeddings prices embF priceF hc he hp] at h
        cases h

theorem insufficientMsg_ne_empty (need got : Nat) : insufficientMsg need got ≠ "" := by
  unfold insufficientMsg
  apply string_append_ne_empty
  apply string_append_ne_empty
  apply string_append_ne_empty
  decide

theorem parse_error_ne_empty (t : Table) (e : String) (h : parse_csv_data t = Except.error e) :
    e ≠ "" := by
  cases parse_error_cases t e h with
  | inl hcol =>
    cases collectRows_error_shapes t t.rows e hcol with
    | inl h1 =>
      rw [h1]
      decide
    | inr h2 =>
      obtain ⟨c, hc⟩ := h2
      rw [hc]
      apply string_append_ne_empty
      decide
  | inr hconv =>
    obtain ⟨v, hv⟩ := hconv
    obtain ⟨s, hs⟩ := toFloat32_error_shape v e hv
    rw [hs]
    apply string_append_ne_empty
    decide

/-- The external collaborators never raise an exception whose message is the
empty string (every real Python exception in these libraries carries one). -/
def GoodEnv (env : Env) : Prop :=
  (∀ n e, env.loadCheckpoint n = Except.error e → e ≠ "") ∧
  (∀ d e, env.readCsv d = Except.error e → e ≠ "") ∧
  (∀ n model config, env.loadCheckpoint n = Except.ok (model, config) →
    ∀ s e, model.predict_last s = Except.error e → e ≠ "")

theorem executor_error_ne_empty (env : Env) (hgood : GoodEnv env)
    (model_name data e : String) (h : executor env model_name data = Except.error e) :
    e ≠ "" := by
  obtain ⟨hload, hcsv, hpredict⟩ := hgood
  cases hl : load_model env model_name with
  | error e2 =>
    rw [executor_load_error env model_name data e2 hl] at h
    cases h
    cases load_model_error_cases env model_name e hl with
    | inl hnf =>
      rw [hnf]
      apply string_append_ne_empty
      decide
    | inr hck => exact hload model_name e hck
  | ok mc =>
    obtain ⟨model, config⟩ := mc
    cases hc : env.readCsv data with
    | error e2 =>
      rw [executor_csv_error env model_name data model config e2 hl hc] at h
      cases h
      exact hcsv data e hc
    | ok t =>
      cases hp : parse_csv_data t with
      | error e2 =>
        rw [executor_parse_error env model_name data model config t e2 hl hc hp] at h
        cases h
        exact parse_error_ne_empty t e hp
      | ok pr =>
        obtain ⟨embeddings, prices⟩ := pr
        rw [executor_run env model_name data model config t embeddings prices hl hc hp] at h
        cases run_inference_error_cases model config embeddings prices e h with
        | inl h1 =>
          rw [h1]
          exact insufficientMsg_ne_empty seq_length embeddings.length
        | inr h2 =>
          cases h2 with
          | inl hidx =>
            rw [hidx]
            decide
          | inr hpe =>
            exact hpredict model_name model config (load_model_ok_cases env model_name _ hl).2
              _ e hpe

/-! ### The job-lifecycle invariant and the worker loop -/

theorem reachable_invariant (P : Env → Prop) (job : InferenceJob)
    (h : Reachable P job) : statusResultErrorOk job := by
  induction h with
  | submitted job_id model data now =>
    unfold statusResultErrorOk
    simp [mkInferenceJob]
  | marked job hjob hpend ih =>
    obtain ⟨-, -, hpp⟩ := ih
    have h2 := hpp (Or.inl hpend)
    unfold statusResultErrorOk
    simp [markProcessing, h2.1, h2.2]
  | finished env now job hjob hP hproc ih =>
    obtain ⟨-, -, hpp⟩ := ih
    have h2 := hpp (Or.inr hproc)
    cases hx : executor env job.model job.data with
    | ok r =>
      rw [finishJob_of_ok env now job r hx]
      unfold statusResultErrorOk
      simp [h2.1, h2.2]
    | error e =>
      rw [finishJob_of_error env now job e hx]
      unfold statusResultErrorOk
      simp [h2.1, h2.2]

theorem processJob_of_executor_ok (env : Env) (now : Nat) (job : InferenceJob)
    (r : PredictionResult) (h : executor env job.model job.data = Except.ok r) :
    processJob env now job =
      { job with status := JobStatus.completed, result := some r, completed_at := some now } := by
  unfold processJob
  rw [finishJob_of_ok env now (markProcessing job) r h]
  rfl

theorem processJob_of_executor_error (env : Env) (now : Nat) (job : InferenceJob)
    (e : String) (h : executor env job.model job.data = Except.error e) :
    processJob env now job =
      { job with status := JobStatus.failed, error := some e, completed_at := some now } := by
  unfold processJob
  rw [finishJob_of_error env now (markProcessing job) e h]
  rfl

theorem processJob_terminal (env : Env) (now : Nat) (job : InferenceJob) :
    ((processJob env now job).status = JobStatus.completed ∨
      (processJob env now job).status = JobStatus.failed) ∧
    (processJob env now job).completed_at = some now := by
  cases hx : executor env job.model job.data with
  | ok r =>
    rw [processJob_of_executor_ok env now job r hx]
    exact ⟨Or.inl rfl, rfl⟩
  | error e =>
    rw [processJob_of_executor_error env now job e hx]
    exact ⟨Or.inr rfl, rfl⟩

theorem workerRun_length (env : Env) (now : Nat) :
    ∀ queue : List InferenceJob, (workerRun env now queue).length = queue.length := by
  intro queue
  induction queue with
  | nil => rfl
  | cons job rest ih => simp [workerRun, ih]

theorem workerRun_mem (env : Env) (now : Nat) :
    ∀ (queue : List InferenceJob) (j : InferenceJob), j ∈ workerRun env now queue →
      ∃ j0 ∈ queue, j = processJob env now j0 := by
  intro queue
  induction queue with
  | nil =>
    intro j h
    cases h
  | cons job rest ih =>
    intro j h
    rw [show workerRun env now (job :: rest) = processJob env now job :: workerRun env now rest
      from rfl] at h
    cases h with
    | head => exact ⟨job, List.mem_cons_self job rest, rfl⟩
    | tail _ h2 =>
      obtain ⟨j0, hj0, hje⟩ := ih j h2
      exact ⟨j0, List.mem_cons_of_mem job hj0, hje⟩

theorem mapExcept_nil {α β : Type} (f : α → Except String β) :
    mapExcept f ([] : List α) = Except.ok [] := rfl

theorem mapExcept_ok_mem {α β : Type} (f : α → Except String β) :
    ∀ (l : List α) (l' : List β), mapExcept f l = Except.ok l' →
      ∀ a ∈ l, ∃ b, f a = Except.ok b := by
  intro l
  induction l with
  | nil =>
    intro l' _ a ha
    cases ha
  | cons x xs ih =>
    intro l' h a ha
    simp only [mapExcept] at h
    cases hfx : f x with
    | error e => rw [hfx] at h; cases h
    | ok b =>
      rw [hfx] at h
      cases hrec : mapExcept f xs with
      | error e => rw [hrec] at h; cases h
      | ok bs =>
        cases ha with
        | head => exact ⟨b, hfx⟩
        | tail _ ha2 => exact ih bs hrec a ha2

/-! ### Concrete instances for the witnesses -/

/-- A frame holding all 128 embedding columns plus the price column. -/
def fullCols : List String := embCols ++ ["last_price"]

/-- A numeric row for `fullCols`, all embeddings 1 and the given price. -/
def numRow (p : Rat) : List Val := List.replicate 128 (Val.num 1) ++ [Val.num p]

/-- A complete frame with a single valid row. -/
def tOne : Table := { cols := fullCols, rows := [numRow 100] }

/-- A model predicting the relative changes of the spec's arithmetic example. -/
def mC4 : XModel := ⟨fun _ => Except.ok [(0.05 : Rat), (-0.02 : Rat)]⟩

/-- A checkpoint configuration with prediction horizon 2. -/
def cC4 : ModelConfig := ⟨some 2⟩

/-- Twenty embedding vectors, enough for the fixed window. -/
def embC4 : List (List Rat) := List.replicate 20 (List.replicate 128 0)

/-- Twenty prices, the last one being the anchor 100. -/
def pricesC4 : List Rat := List.replicate 19 1 ++ [100]

/-- A model always predicting a single zero relative change. -/
def mZero : XModel := ⟨fun _ => Except.ok [0]⟩

/-- A checkpoint configuration without the `prediction_horizon` key. -/
def cNone : ModelConfig := ⟨none⟩

/-- An environment whose model directory is empty. -/
def envNoModel : Env :=
  { modelExists := fun _ => false,
    loadCheckpoint := fun _ => Except.error "unused",
    readCsv := fun _ => Except.error "unused" }

/-- An environment that loads `mZero` and reads the one-row frame. -/
def envOne : Env :=
  { modelExists := fun _ => true,
    loadCheckpoint := fun _ => Except.ok (mZero, cNone),
    readCsv := fun _ => Except.ok tOne }

/-- A pending job as `submit_job` creates it. -/
def jobA : InferenceJob := mkInferenceJob "job-a" "m" "csv" 0

/-- A frame missing `emb_0` (and most other embedding columns). -/
def tMissC5 : Table := { cols := ["emb_1", "last_price"], rows := [[Val.num 2, Val.num 100]] }

/-- A complete frame whose first embedding cell is a non-numeric token. -/
def tBadVal : Table :=
  { cols := fullCols,
    rows := [Val.nonNumeric "abc" :: (List.replicate 127 (Val.num 1) ++ [Val.num 100])] }

/-- A frame with two rows that lacks every `emb_i` column except `emb_5`. -/
def tMissC10 : Table :=
  { cols := ["emb_5", "other", "last_price"],
    rows := [[Val.num 1, Val.num 2, Val.num 3], [Val.num 4, Val.num 5, Val.num 6]] }

theorem run_inference_eval_spec_example :
    run_inference mC4 cC4 embC4 pricesC4 =
      Except.ok { predicted_prices := [105, 98], prediction_horizon := 2,
                  current_price := 100 } := by
  have hlen : ¬ embC4.length < seq_length := by decide
  have hlast : pricesC4.getLast? = some 100 := by decide
  have hpred : mC4.predict_last (embC4.drop (embC4.length - seq_length)) =
      Except.ok [(0.05 : Rat), (-0.02 : Rat)] := rfl
  rw [run_inference_success mC4 cC4 embC4 pricesC4 100 [(0.05 : Rat), (-0.02 : Rat)]
    hlen hlast hpred]
  norm_num [cC4]

theorem run_inference_eval_zero :
    run_inference mZero cNone embC4 pricesC4 =
      Except.ok { predicted_prices := [100], prediction_horizon := 1,
                  current_price := 100 } := by
  have hlen : ¬ embC4.length < seq_length := by decide
  have hlast : pricesC4.getLast? = some 100 := by decide
  have hpred : mZero.predict_last (embC4.drop (embC4.length - seq_length)) =
      Except.ok [(0 : Rat)] := rfl
  rw [run_inference_success mZero cNone embC4 pricesC4 100 [(0 : Rat)] hlen hlast hpred]
  norm_num [cNone]

/-! ### The claims -/

/-- C1: for every job record reachable through submission and worker-loop
processing, the result is populated and the error absent exactly when the
status is Completed, the error is populated and the result absent exactly
when the status is Failed, and neither is populated while the status is
Pending or Processing. -/
theorem job_result_error_iff_status (P : Env → Prop) (job : InferenceJob)
    (h : Reachable P job) :
    (job.status = JobStatus.completed ↔ job.result.isSome ∧ job.error = none) ∧
    (job.status = JobStatus.failed ↔ job.error.isSome ∧ job.result = none) ∧
    ((job.status = JobStatus.pending ∨ job.status = JobStatus.processing) →
      job.result = none ∧ job.error = none) :=
  reachable_invariant P job h

/-- Witness for C1 at a freshly submitted job. -/
theorem job_result_error_iff_status_witness :
    ((mkInferenceJob "j1" "m" "d" 0).status = JobStatus.completed ↔
      (mkInferenceJob "j1" "m" "d" 0).result.isSome ∧
      (mkInferenceJob "j1" "m" "d" 0).error = none) ∧
    ((mkInferenceJob "j1" "m" "d" 0).status = JobStatus.failed ↔
      (mkInferenceJob "j1" "m" "d" 0).error.isSome ∧
      (mkInferenceJob "j1" "m" "d" 0).result = none) ∧
    (((mkInferenceJob "j1" "m" "d" 0).status = JobStatus.pending ∨
      (mkInferenceJob "j1" "m" "d" 0).status = JobStatus.processing) →
      (mkInferenceJob "j1" "m" "d" 0).result = none ∧
      (mkInferenceJob "j1" "m" "d" 0).error = none) :=
  job_result_error_iff_status (fun _ => True) (mkInferenceJob "j1" "m" "d" 0)
    (Reachable.submitted "j1" "m" "d" 0)

/-- C2: one worker-loop iteration leaves every dequeued job in a terminal
status with its completion timestamp set; any exception raised by model
loading, parsing or inference is caught and recorded as a Failed record with
its description; and the loop keeps processing every remaining queued job. -/
theorem worker_iteration_always_terminal (env : Env) (now : Nat) (job : InferenceJob)
    (queue : List InferenceJob) :
    ((processJob env now job).status = JobStatus.completed ∨
      (processJob env now job).status = JobStatus.failed) ∧
    (processJob env now job).completed_at = some now ∧
    (∀ e, executor env job.model job.data = Except.error e →
      (processJob env now job).status = JobStatus.failed ∧
      (processJob env now job).error = some e) ∧
    (workerRun env now (job :: queue)).length = queue.length + 1 ∧
    (∀ j ∈ workerRun env now (job :: queue),
      (j.status = JobStatus.completed ∨ j.status = JobStatus.failed) ∧
      j.completed_at = some now) := by
  refine ⟨(processJob_terminal env now job).1, (processJob_terminal env now job).2, ?_, ?_, ?_⟩
  · intro e he
    rw [processJob_of_executor_error env now job e he]
    exact ⟨rfl, rfl⟩
  · rw [workerRun_length env now]
    simp
  · intro j hj
    obtain ⟨j0, _, hje⟩ := workerRun_mem env now (job :: queue) j hj
    rw [hje]
    exact ⟨(processJob_terminal env now j0).1, (processJob_terminal env now j0).2⟩

/-- Witness for C2: an unexpected missing-model failure is caught and folded
into a Failed record. -/
theorem worker_iteration_always_terminal_witness :
    (processJob envNoModel 7 jobA).status = JobStatus.failed ∧
    (processJob envNoModel 7 jobA).error = some ("Model not found: " ++ "m") :=
  (worker_iteration_always_terminal envNoModel 7 jobA []).2.2.1
    ("Model not found: " ++ "m") (by decide)

/-- C3: when the parsed feature sequence has fewer than the fixed window
length (20) of rows, the job fails with the message naming both the required
and the actual count. -/
theorem insufficient_rows_yield_failed_with_counts (env : Env) (now : Nat)
    (job : InferenceJob) (model : XModel) (config : ModelConfig) (t : Table)
    (embeddings : List (List Rat)) (prices : List Rat)
    (hload : load_model env job.model = Except.ok (model, config))
    (hcsv : env.readCsv job.data = Except.ok t)
    (hparse : parse_csv_data t = Except.ok (embeddings, prices))
    (hlen : embeddings.length < seq_length) :
    (processJob env now job).status = JobStatus.failed ∧
    (processJob env now job).error =
      some ("Not enough data points. Need at least " ++ toString seq_length ++
        ", got " ++ toString embeddings.length) := by
  have hx : executor env job.model job.data =
      Except.error (insufficientMsg seq_length embeddings.length) := by
    rw [executor_run env job.model job.data model config t embeddings prices hload hcsv hparse]
    exact run_inference_insufficient model config embeddings prices hlen
  rw [processJob_of_executor_error env now job _ hx]
  exact ⟨rfl, rfl⟩

set_option maxHeartbeats 2000000 in
/-- Witness for C3: one valid row against the window size 20. -/
theorem insufficient_rows_yield_failed_with_counts_witness :
    (processJob envOne 0 jobA).status = JobStatus.failed ∧
    (processJob envOne 0 jobA).error =
      some ("Not enough data points. Need at least " ++ toString seq_length ++
        ", got " ++ toString (1 : Nat)) :=
  insufficient_rows_yield_failed_with_counts envOne 0 jobA mZero cNone tOne
    [List.replicate 128 (1 : Rat)] [(100 : Rat)]
    rfl rfl (by decide) (by decide)

/-- C4: every predicted value of a successful run is `anchor * (1 + r)` for
the matching relative change `r`, the anchor being the last reference price;
in particular anchor 100 with relative changes [0.05, -0.02] yields
[105, 98] with horizon 2 and anchor 100. -/
theorem predicted_values_anchor_arithmetic (model : XModel) (config : ModelConfig)
    (embeddings : List (List Rat)) (prices : List Rat) (res : PredictionResult)
    (hrun : run_inference model config embeddings prices = Except.ok res) :
    (∃ anchor pred_relatives,
      prices.getLast? = some anchor ∧
      model.predict_last (embeddings.drop (embeddings.length - seq_length)) =
        Except.ok pred_relatives ∧
      res.predicted_prices = pred_relatives.map (fun r => anchor * (1 + r)) ∧
      res.current_price = anchor) ∧
    run_inference mC4 cC4 embC4 pricesC4 =
      Except.ok { predicted_prices := [105, 98], prediction_horizon := 2,
                  current_price := 100 } := by
  constructor
  · obtain ⟨cp, rels, hlen, hlast, hpred, hres⟩ :=
      run_inference_ok_cases model config embeddings prices res hrun
    exact ⟨cp, rels, hlast, hpred, by rw [hres], by rw [hres]⟩
  · exact run_inference_eval_spec_example

/-- Witness for C4 at the spec's arithmetic example. -/
theorem predicted_values_anchor_arithmetic_witness :
    ∃ anchor pred_relatives,
      pricesC4.getLast? = some anchor ∧
      mC4.predict_last (embC4.drop (embC4.length - seq_length)) =
        Except.ok pred_relatives ∧
      ({ predicted_prices := [105, 98], prediction_horizon := 2,
         current_price := 100 } : PredictionResult).predicted_prices =
        pred_relatives.map (fun r => anchor * (1 + r)) ∧
      ({ predicted_prices := [105, 98], prediction_horizon := 2,
         current_price := 100 } : PredictionResult).current_price = anchor :=
  (predicted_values_anchor_arithmetic mC4 cC4 embC4 pricesC4
    { predicted_prices := [105, 98], prediction_horizon := 2, current_price := 100 }
    run_inference_eval_spec_example).1

/-- C5 counterexample: a payload whose frame lacks the required column
`emb_0` parses without any error (it returns empty sequences), so the claim
that an absent required feature column makes the parsing step fail is false. -/
theorem parse_missing_column_no_error_cex :
    (∃ c ∈ embCols, c ∉ tMissC5.cols) ∧ tMissC5.rows ≠ [] ∧
    parse_csv_data tMissC5 = Except.ok ([], []) :=
  ⟨⟨"emb_0", by decide, by decide⟩, by decide, by decide⟩

/-- C5 amended: a non-numeric feature value among the retained rows does make
the parsing step fail, but an absent required feature column instead makes
the parser skip every row and return empty sequences without error. -/
theorem parse_failure_modes_amended (t : Table) (hrect : RectTable t) :
    (∀ es ps, collectRows t t.rows = Except.ok (es, ps) →
      (∃ s, Val.nonNumeric s ∈ es.flatten ∨ Val.nonNumeric s ∈ ps) →
      ∃ e, parse_csv_data t = Except.error e) ∧
    (¬ hasAllEmbCols t → parse_csv_data t = Except.ok ([], [])) := by
  constructor
  · intro es ps hcol hbad
    cases hp : parse_csv_data t with
    | error e => exact ⟨e, rfl⟩
    | ok pr =>
      exfalso
      obtain ⟨embF, priceF⟩ := pr
      obtain ⟨es2, ps2, hc2, he2, hp2⟩ := parse_ok_cases t embF priceF hp
      rw [hcol] at hc2
      cases hc2
      obtain ⟨s, hmem⟩ := hbad
      cases hmem with
      | inl hflat =>
        obtain ⟨vec, hvec, hv⟩ := List.mem_flatten.mp hflat
        obtain ⟨fv, hfv⟩ := mapExcept_ok_mem _ es embF he2 vec hvec
        obtain ⟨q, hq⟩ := mapExcept_ok_mem toFloat32 vec fv hfv (Val.nonNumeric s) hv
        cases hq
      | inr hps =>
        obtain ⟨q, hq⟩ := mapExcept_ok_mem toFloat32 ps priceF hp2 (Val.nonNumeric s) hps
        cases hq
  · intro hmiss
    exact parse_conv_ok t [] [] [] [] (collectRows_skip_all t hmiss t.rows hrect) rfl rfl

set_option maxHeartbeats 4000000 in
/-- Witness for the amended C5: a complete frame with a non-numeric embedding
cell fails to parse. -/
theorem parse_failure_modes_amended_witness :
    ∃ e, parse_csv_data tBadVal = Except.error e :=
  (parse_failure_modes_amended tBadVal (by decide)).1
    [Val.nonNumeric "abc" :: List.replicate 127 (Val.num 1)]
    [Val.num 100] (by decide) ⟨"abc", Or.inl (by decide)⟩

/-- C6: when the model honours its documented output shape
`(1, prediction_horizon)` — the forward pass returns exactly as many
relative changes as the configured horizon — the horizon field of every
successful result equals the length of the returned predicted sequence. -/
theorem horizon_equals_predicted_length (model : XModel) (config : ModelConfig)
    (embeddings : List (List Rat)) (prices : List Rat) (res : PredictionResult)
    (hshape : ∀ s rels, model.predict_last s = Except.ok rels →
      rels.length = config.prediction_horizon.getD 1)
    (hrun : run_inference model config embeddings prices = Except.ok res) :
    res.prediction_horizon = res.predicted_prices.length := by
  obtain ⟨cp, rels, hlen, hlast, hpred, hres⟩ :=
    run_inference_ok_cases model config embeddings prices res hrun
  rw [hres]
  simp [List.length_map, hshape _ rels hpred]

/-- Witness for C6 with a horizon-respecting model. -/
theorem horizon_equals_predicted_length_witness :
    ({ predicted_prices := [100], prediction_horizon := 1,
       current_price := 100 } : PredictionResult).prediction_horizon =
    ({ predicted_prices := [100], prediction_horizon := 1,
       current_price := 100 } : PredictionResult).predicted_prices.length :=
  horizon_equals_predicted_length mZero cNone embC4 pricesC4
    { predicted_prices := [100], prediction_horizon := 1, current_price := 100 }
    (by
      intro s rels h
      have h2 : ([(0 : Rat)]) = rels := by injection h
      rw [← h2]
      rfl)
    run_inference_eval_zero

/-- C7: for every frame the parser accepts, the feature and reference
sequences have equal length (one scalar per vector); when every required
column is present all rows are retained in input order (the i-th feature
vector and the i-th reference scalar come from the i-th input row), and when
some required column is missing no row is retained. -/
theorem parser_retention_order_parallel (t : Table) (fs : List (List Rat)) (rs : List Rat)
    (hrect : RectTable t) (h : parse_csv_data t = Except.ok (fs, rs)) :
    fs.length = rs.length ∧
    (hasAllEmbCols t →
      List.Forall₂ (fun row fv => mapExcept toFloat32 (rowVec t row) = Except.ok fv)
        t.rows fs ∧
      List.Forall₂ (fun row r => toFloat32 (cellVal t row "last_price") = Except.ok r)
        t.rows rs) ∧
    (¬ hasAllEmbCols t → fs = [] ∧ rs = []) := by
  obtain ⟨es, ps, hc, he, hp⟩ := parse_ok_cases t fs rs h
  refine ⟨?_, ?_, ?_⟩
  · have h1 := mapExcept_ok_length _ es fs he
    have h2 := mapExcept_ok_length _ ps rs hp
    have h3 := collectRows_ok_length t t.rows es ps hc
    omega
  · intro hall
    by_cases hlp : "last_price" ∈ t.cols
    · have hcoll := collectRows_complete t hall hlp t.rows hrect
      rw [hcoll] at hc
      cases hc
      constructor
      · exact List.forall₂_map_left_iff.mp (mapExcept_ok_forall₂ _ _ _ he)
      · exact List.forall₂_map_left_iff.mp (mapExcept_ok_forall₂ _ _ _ hp)
    · cases hrows : t.rows with
      | nil =>
        rw [hrows] at hc
        rw [show collectRows t [] = Except.ok ([], []) from rfl] at hc
        cases hc
        rw [mapExcept_nil] at he
        rw [mapExcept_nil] at hp
        cases he
        cases hp
        exact ⟨List.Forall₂.nil, List.Forall₂.nil⟩
      | cons row rest =>
        exfalso
        have hrowmem : row ∈ t.rows := by
          rw [hrows]
          exact List.mem_cons_self row rest
        have herr := collectRows_noLP_error t hall hlp row rest (hrect row hrowmem)
        rw [hrows, herr] at hc
        cases hc
  · intro hmiss
    rw [collectRows_skip_all t hmiss t.rows hrect] at hc
    cases hc
    rw [mapExcept_nil] at he
    rw [mapExcept_nil] at hp
    cases he
    cases hp
    exact ⟨rfl, rfl⟩

set_option maxHeartbeats 2000000 in
/-- Witness for C7 at a complete one-row frame. -/
theorem parser_retention_order_parallel_witness :
    ([List.replicate 128 (1 : Rat)] : List (List Rat)).length =
      ([(100 : Rat)] : List Rat).length ∧
    (hasAllEmbCols tOne →
      List.Forall₂ (fun row fv => mapExcept toFloat32 (rowVec tOne row) = Except.ok fv)
        tOne.rows [List.replicate 128 (1 : Rat)] ∧
      List.Forall₂ (fun row r => toFloat32 (cellVal tOne row "last_price") = Except.ok r)
        tOne.rows [(100 : Rat)]) ∧
    (¬ hasAllEmbCols tOne →
      [List.replicate 128 (1 : Rat)] = ([] : List (List Rat)) ∧
      [(100 : Rat)] = ([] : List Rat)) :=
  parser_retention_order_parallel tOne [List.replicate 128 (1 : Rat)] [(100 : Rat)]
    (by decide) (by decide)

/-- C8: two jobs submitted in order into an idle service are processed
strictly one at a time in submission order: the first job's Processing event
precedes the second's in the worker trace. -/
theorem jobs_processed_in_submission_order (env : Env) (now t1 t2 : Nat)
    (id1 id2 m1 m2 d1 d2 : String) (hid : id1 ≠ id2) :
    (workerTrace env now (twoJobQueue id1 m1 d1 t1 id2 m2 d2 t2)).findIdx
        (fun ev => decide (ev = { jobId := id1, status := JobStatus.processing })) <
    (workerTrace env now (twoJobQueue id1 m1 d1 t1 id2 m2 d2 t2)).findIdx
        (fun ev => decide (ev = { jobId := id2, status := JobStatus.processing })) := by
  have htr : workerTrace env now (twoJobQueue id1 m1 d1 t1 id2 m2 d2 t2) =
      [{ jobId := id1, status := JobStatus.processing },
       { jobId := id1, status := (processJob env now (mkInferenceJob id1 m1 d1 t1)).status },
       { jobId := id2, status := JobStatus.processing },
       { jobId := id2, status := (processJob env now (mkInferenceJob id2 m2 d2 t2)).status }] :=
    rfl
  rw [htr]
  simp [List.findIdx_cons, Event.mk.injEq, hid]

/-- Witness for C8 with two distinct job ids. -/
theorem jobs_processed_in_submission_order_witness :
    (workerTrace envNoModel 0 (twoJobQueue "a" "m1" "d1" 1 "b" "m2" "d2" 2)).findIdx
        (fun ev => decide (ev = { jobId := "a", status := JobStatus.processing })) <
    (workerTrace envNoModel 0 (twoJobQueue "a" "m1" "d1" 1 "b" "m2" "d2" 2)).findIdx
        (fun ev => decide (ev = { jobId := "b", status := JobStatus.processing })) :=
  jobs_processed_in_submission_order envNoModel 0 1 2 "a" "b" "m1" "m2" "d1" "d2" (by decide)

/-- C9: in environments whose external failures carry non-empty messages,
every job that ends Failed has a non-empty error description, and every job
that ends Completed has no error description. -/
theorem failed_error_nonempty_completed_none (job : InferenceJob)
    (h : Reachable GoodEnv job) :
    (job.status = JobStatus.failed → ∃ m, job.error = some m ∧ m ≠ "") ∧
    (job.status = JobStatus.completed → job.error = none) := by
  induction h with
  | submitted id m d now =>
    constructor
    · intro hs
      simp [mkInferenceJob] at hs
    · intro hs
      simp [mkInferenceJob] at hs
  | marked job hjob hpend ih =>
    constructor
    · intro hs
      simp [markProcessing] at hs
    · intro hs
      simp [markProcessing] at hs
  | finished env now job hjob hgood hproc ih =>
    cases hx : executor env job.model job.data with
    | ok r =>
      rw [finishJob_of_ok env now job r hx]
      constructor
      · intro hs
        simp at hs
      · intro _
        exact ((reachable_invariant GoodEnv job hjob).2.2 (Or.inr hproc)).2
    | error e =>
      rw [finishJob_of_error env now job e hx]
      constructor
      · intro _
        exact ⟨e, rfl, executor_error_ne_empty env hgood job.model job.data e hx⟩
      · intro hs
        simp at hs

/-- Witness for C9 at a freshly submitted job. -/
theorem failed_error_nonempty_completed_none_witness :
    ((mkInferenceJob "j9" "m" "d" 0).status = JobStatus.failed →
      ∃ m, (mkInferenceJob "j9" "m" "d" 0).error = some m ∧ m ≠ "") ∧
    ((mkInferenceJob "j9" "m" "d" 0).status = JobStatus.completed →
      (mkInferenceJob "j9" "m" "d" 0).error = none) :=
  failed_error_nonempty_completed_none (mkInferenceJob "j9" "m" "d" 0)
    (Reachable.submitted "j9" "m" "d" 0)

/-- C10: a frame missing any of the 128 required embedding columns makes the
parser skip every row — presence is checked against the frame's column set,
not per row — returning empty feature and reference sequences with no
error. -/
theorem missing_embedding_column_skips_all_rows (t : Table)
    (hrect : RectTable t) (hmiss : ∃ c ∈ embCols, c ∉ t.cols) :
    parse_csv_data t = Except.ok ([], []) := by
  have hnall : ¬ hasAllEmbCols t := by
    obtain ⟨c, hc1, hc2⟩ := hmiss
    intro hall
    exact hc2 (hall c hc1)
  exact parse_conv_ok t [] [] [] [] (collectRows_skip_all t hnall t.rows hrect) rfl rfl

/-- Witness for C10: a two-row frame lacking `emb_0`. -/
theorem missing_embedding_column_skips_all_rows_witness :
    parse_csv_data tMissC10 = Except.ok ([], []) :=
  missing_embedding_column_skips_all_rows tMissC10 (by decide) ⟨"emb_0", by decide, by decide⟩

end AlmBackend
